import Mathlib

/-!
# Verification of the minimax_tagger batching-and-dispatch pipeline

Shallow embedding of the core logic of `minimax_tagger`:

* `src/minimax_tagger/pipeline.py` — `dynamic_chunk_images`,
  `process_image_batch`, `process_images_pipeline`;
* `src/minimax_tagger/utils/image_io.py` — `estimate_base64_size`;
* `src/minimax_tagger/utils/concurrency.py` — `retry_async`;
* `src/minimax_tagger/manifest.py` — `ImageRecord`, `ManifestManager`.

File paths are embedded as an arbitrary type `α`; the file system is an
oracle `statSize : α → Option Nat` (`none` models `Path.stat()` raising
`OSError`).  The external vision API, exceptions escaping a batch task, and
`random.random()` are likewise oracles, so theorems quantify over every
behavior of the collaborators.
-/

namespace MinimaxTagger

/-! ## Size estimation (`utils/image_io.py`) -/

/-- `estimate_base64_size` (image_io.py lines 80–95): returns
`int(file_size * 1.33) + 1024` when `Path.stat()` succeeds and `0` when it
raises `OSError` (the `except OSError` branch logs a warning and returns 0).
The float product `file_size * 1.33` is modelled as the rational floor
`file_size * 133 / 100`; no claim depends on the exact value of the
success-path estimate. -/
def estimate_base64_size (statSize : α → Option Nat) (p : α) : Nat :=
  match statSize p with
  | some file_size => file_size * 133 / 100 + 1024
  | none => 0

/-! ## Dynamic chunking (`pipeline.py` lines 63–110) -/

/-- `base_overhead` (pipeline.py line 81): estimated JSON structure overhead. -/
def base_overhead : Nat := 2048

/-- The `for image_path in image_paths` loop of `dynamic_chunk_images`
(pipeline.py lines 83–110), with the running `current_batch` / `current_size`
state explicit.  `sizeFn p = none` models the size computation raising
`OSError` inside the loop's `try`, which the `except OSError` arm skips
(`continue`); `sizeFn p = some sz` is a normal return of `sz`.
The yielded chunks are collected into a list (the generator is only ever
consumed whole, via `list(...)`, in `process_images_pipeline`). -/
def chunkLoop (maxBytes : Nat) (sizeFn : α → Option Nat) :
    List α → List α → Nat → List (List α)
  | [], current_batch, _ =>
      -- trailing `if current_batch: yield current_batch`
      if current_batch.isEmpty then [] else [current_batch]
  | p :: rest, current_batch, current_size =>
      match sizeFn p with
      | none => chunkLoop maxBytes sizeFn rest current_batch current_size
      | some image_size =>
          if maxBytes < image_size + base_overhead then
            -- `if image_size + base_overhead > max_bytes: ... continue`
            chunkLoop maxBytes sizeFn rest current_batch current_size
          else if current_batch.isEmpty = false ∧
              maxBytes < current_size + image_size + base_overhead then
            -- `if current_batch and (...): yield current_batch` then append
            current_batch :: chunkLoop maxBytes sizeFn rest [p] image_size
          else
            chunkLoop maxBytes sizeFn rest (current_batch ++ [p])
              (current_size + image_size)

/-- `dynamic_chunk_images` (pipeline.py lines 63–110). `maxBytes` stands for
`settings.max_batch_size_bytes`. -/
def dynamic_chunk_images (maxBytes : Nat) (sizeFn : α → Option Nat)
    (image_paths : List α) : List (List α) :=
  if image_paths.isEmpty then [] else chunkLoop maxBytes sizeFn image_paths [] 0

/-- A file survives chunking iff its size computation returns and the size
plus `base_overhead` fits inside `maxBytes` (the two `continue` paths of the
loop are the only ways a file is dropped). -/
def keptFile (maxBytes : Nat) (sizeFn : α → Option Nat) (p : α) : Bool :=
  match sizeFn p with
  | none => false
  | some sz => decide (sz + base_overhead ≤ maxBytes)

/-- Estimated payload of a chunk: sum of the per-file sizes. -/
def chunkSize (sizeFn : α → Option Nat) (c : List α) : Nat :=
  (c.map (fun p => (sizeFn p).getD 0)).sum

theorem chunkLoop_flatten (maxBytes : Nat) (sizeFn : α → Option Nat) :
    ∀ (rest current_batch : List α) (current_size : Nat),
      (chunkLoop maxBytes sizeFn rest current_batch current_size).flatten =
        current_batch ++ rest.filter (keptFile maxBytes sizeFn) := by
  intro rest
  induction rest with
  | nil =>
      intro current_batch current_size
      by_cases h : current_batch.isEmpty
      · simp [chunkLoop, h, List.isEmpty_iff.mp h]
      · simp [chunkLoop, h]
  | cons p rest ih =>
      intro current_batch current_size
      rcases hs : sizeFn p with _ | sz
      · simp [chunkLoop, hs, ih, List.filter, keptFile]
      · by_cases hbig : maxBytes < sz + base_overhead
        · have hk : keptFile maxBytes sizeFn p = false := by
            simp [keptFile, hs]; omega
          simp [chunkLoop, hs, hbig, ih, List.filter, hk]
        · have hk : keptFile maxBytes sizeFn p = true := by
            simp [keptFile, hs]; omega
          by_cases hfull : current_batch.isEmpty = false ∧
              maxBytes < current_size + sz + base_overhead
          · simp only [chunkLoop, hs, if_neg hbig, if_pos hfull]
            simp [ih, List.filter, hk]
          · simp only [chunkLoop, hs, if_neg hbig, if_neg hfull]
            simp [ih, List.filter, hk]

theorem dynamic_chunk_images_flatten (maxBytes : Nat) (sizeFn : α → Option Nat)
    (image_paths : List α) :
    (dynamic_chunk_images maxBytes sizeFn image_paths).flatten =
      image_paths.filter (keptFile maxBytes sizeFn) := by
  rcases image_paths with _ | ⟨p, rest⟩
  · simp [dynamic_chunk_images]
  · simpa [dynamic_chunk_images] using
      chunkLoop_flatten maxBytes sizeFn (p :: rest) [] 0

theorem isEmpty_false_ne_nil {l : List α} (h : l.isEmpty = false) : l ≠ [] := by
  cases l <;> simp_all

theorem chunkLoop_bounded (maxBytes : Nat) (sizeFn : α → Option Nat) :
    ∀ (rest current_batch : List α) (current_size : Nat),
      current_size = chunkSize sizeFn current_batch →
      (current_batch ≠ [] → current_size + base_overhead ≤ maxBytes) →
      (∀ p ∈ current_batch, keptFile maxBytes sizeFn p = true) →
      ∀ c ∈ chunkLoop maxBytes sizeFn rest current_batch current_size,
        chunkSize sizeFn c + base_overhead ≤ maxBytes ∧
          ∀ p ∈ c, keptFile maxBytes sizeFn p = true := by
  intro rest
  induction rest with
  | nil =>
      intro current_batch current_size hsum hfit hmem c hc
      by_cases h : current_batch.isEmpty
      · simp [chunkLoop, h] at hc
      · simp [chunkLoop, h] at hc
        subst hc
        exact ⟨hsum ▸ hfit (by simpa [List.isEmpty_iff] using h), hmem⟩
  | cons p rest ih =>
      intro current_batch current_size hsum hfit hmem c hc
      rcases hs : sizeFn p with _ | sz
      · simp only [chunkLoop, hs] at hc
        exact ih current_batch current_size hsum hfit hmem c hc
      · simp only [chunkLoop, hs] at hc
        by_cases hbig : maxBytes < sz + base_overhead
        · rw [if_pos hbig] at hc
          exact ih current_batch current_size hsum hfit hmem c hc
        · rw [if_neg hbig] at hc
          have hkept : keptFile maxBytes sizeFn p = true := by
            simp [keptFile, hs]; omega
          by_cases hfull : current_batch.isEmpty = false ∧
              maxBytes < current_size + sz + base_overhead
          · rw [if_pos hfull] at hc
            rcases List.mem_cons.mp hc with hc | hc
            · subst hc
              exact ⟨hsum ▸ hfit (isEmpty_false_ne_nil hfull.1), hmem⟩
            · refine ih [p] sz (by simp [chunkSize, hs]) (fun _ => by omega)
                ?_ c hc
              intro q hq
              rcases List.mem_singleton.mp hq with rfl
              exact hkept
          · rw [if_neg hfull] at hc
            have hfit' : current_batch ++ [p] ≠ [] →
                current_size + sz + base_overhead ≤ maxBytes := by
              intro _
              by_cases hemp : current_batch.isEmpty
              · have : current_size = 0 := by
                  rw [List.isEmpty_iff] at hemp
                  simpa [chunkSize, hemp] using hsum
                omega
              · have : ¬ maxBytes < current_size + sz + base_overhead := by
                  intro hlt
                  exact hfull ⟨by simpa [Bool.not_eq_true] using hemp, hlt⟩
                omega
            refine ih (current_batch ++ [p]) (current_size + sz)
              (by simp [chunkSize, hs, hsum, chunkSize]) hfit' ?_ c hc
            intro q hq
            rcases List.mem_append.mp hq with hq | hq
            · exact hmem q hq
            · rcases List.mem_singleton.mp hq with rfl
              exact hkept

theorem chunkLoop_ne_nil (maxBytes : Nat) (sizeFn : α → Option Nat) :
    ∀ (rest current_batch : List α) (current_size : Nat),
      ∀ c ∈ chunkLoop maxBytes sizeFn rest current_batch current_size, c ≠ [] := by
  intro rest
  induction rest with
  | nil =>
      intro current_batch current_size c hc
      by_cases h : current_batch.isEmpty
      · simp [chunkLoop, h] at hc
      · simp [chunkLoop, h] at hc
        subst hc
        exact isEmpty_false_ne_nil (by simpa [Bool.not_eq_true] using h)
  | cons p rest ih =>
      intro current_batch current_size c hc
      rcases hs : sizeFn p with _ | sz
      · simp only [chunkLoop, hs] at hc
        exact ih current_batch current_size c hc
      · simp only [chunkLoop, hs] at hc
        by_cases hbig : maxBytes < sz + base_overhead
        · rw [if_pos hbig] at hc
          exact ih current_batch current_size c hc
        · rw [if_neg hbig] at hc
          by_cases hfull : current_batch.isEmpty = false ∧
              maxBytes < current_size + sz + base_overhead
          · rw [if_pos hfull] at hc
            rcases List.mem_cons.mp hc with hc | hc
            · subst hc
              exact isEmpty_false_ne_nil hfull.1
            · exact ih [p] sz c hc
          · rw [if_neg hfull] at hc
            exact ih (current_batch ++ [p]) (current_size + sz) c hc

theorem dynamic_chunk_images_ne_nil (maxBytes : Nat) (sizeFn : α → Option Nat)
    (image_paths : List α) :
    ∀ c ∈ dynamic_chunk_images maxBytes sizeFn image_paths, c ≠ [] := by
  intro c hc
  rcases image_paths with _ | ⟨p, rest⟩
  · simp [dynamic_chunk_images] at hc
  · exact chunkLoop_ne_nil maxBytes sizeFn (p :: rest) [] 0 c
      (by simpa [dynamic_chunk_images] using hc)

/-! ## Retry with exponential backoff (`utils/concurrency.py` lines 19–64)

`retry_async(func, max_retries, base_delay, max_delay)` loops
`for attempt in range(max_retries + 1)`, returning `await func()` on success;
on an exception it re-raises a `RetryError` wrapping the last exception when
`attempt == max_retries`, otherwise sleeps
`min(base_delay * 2**attempt, max_delay) * (0.5 + random.random() * 0.5)`
and retries.  The wrapped operation is an oracle `op : Nat → Except E A`
giving the outcome of each invocation (`op k` = outcome of the `k`-th call),
and `random.random()` is an oracle `jitter : Nat → ℚ` (its value during
attempt `k`).  Floats are modelled as rationals. -/

/-- Outcome of `retry_async`: a returned value, the `RetryError` raised at
line 52 after the last attempt (wrapping the last exception), or the
`RetryError("未知错误: ...")` at line 64 after the loop (unreachable for the
`range(max_retries + 1)` loop since the range is never empty). -/
inductive RetryOutcome (E A : Type) where
  | ok : A → RetryOutcome E A
  | exhausted : E → RetryOutcome E A
  | unknownError : RetryOutcome E A
  deriving DecidableEq, Repr

/-- Observable trace of one `retry_async` run: the outcome, how many times
`func` was invoked, and the backoff durations passed to `asyncio.sleep` in
order. -/
structure RetryTrace (E A : Type) where
  result : RetryOutcome E A
  calls : Nat
  delays : List ℚ
  deriving DecidableEq, Repr

/-- Pre-jitter backoff delay (concurrency.py line 55):
`delay = min(base_delay * (2 ** attempt), max_delay)`. -/
def preJitterDelay (base_delay max_delay : ℚ) (attempt : Nat) : ℚ :=
  min (base_delay * 2 ^ attempt) max_delay

/-- Jitter multiplier (concurrency.py line 58):
`delay *= (0.5 + random.random() * 0.5)`. -/
def jitterFactor (jitter : Nat → ℚ) (attempt : Nat) : ℚ :=
  1/2 + jitter attempt * (1/2)

/-- The `for attempt in range(max_retries + 1)` loop of `retry_async`,
starting at iteration `attempt` with `fuel` iterations left
(`fuel = max_retries + 1 - attempt` at every real call site; `fuel = 0`
means the loop is over and line 64 raises). -/
def retryLoop (op : Nat → Except E A) (max_retries : Nat)
    (base_delay max_delay : ℚ) (jitter : Nat → ℚ) :
    Nat → Nat → RetryTrace E A
  | 0, _ => ⟨RetryOutcome.unknownError, 0, []⟩
  | fuel + 1, attempt =>
      match op attempt with
      | Except.ok a => ⟨RetryOutcome.ok a, 1, []⟩
      | Except.error e =>
          if attempt = max_retries then ⟨RetryOutcome.exhausted e, 1, []⟩
          else
            let delay := preJitterDelay base_delay max_delay attempt *
              jitterFactor jitter attempt
            let t := retryLoop op max_retries base_delay max_delay jitter
              fuel (attempt + 1)
            ⟨t.result, t.calls + 1, delay :: t.delays⟩

/-- `retry_async` (concurrency.py lines 19–64). -/
def retry_async (op : Nat → Except E A) (max_retries : Nat)
    (base_delay max_delay : ℚ) (jitter : Nat → ℚ) : RetryTrace E A :=
  retryLoop op max_retries base_delay max_delay jitter (max_retries + 1) 0

theorem retryLoop_calls_le (op : Nat → Except E A) (max_retries : Nat)
    (base_delay max_delay : ℚ) (jitter : Nat → ℚ) :
    ∀ fuel attempt,
      (retryLoop op max_retries base_delay max_delay jitter fuel attempt).calls
        ≤ fuel := by
  intro fuel
  induction fuel with
  | zero => intro attempt; simp [retryLoop]
  | succ fuel ih =>
      intro attempt
      rcases hop : op attempt with e | a
      · by_cases hlast : attempt = max_retries
        · subst hlast
          simp [retryLoop, hop]
        · simp only [retryLoop, hop, if_neg hlast]
          exact Nat.succ_le_succ (ih (attempt + 1))
      · simp [retryLoop, hop]

theorem retryLoop_calls_pos (op : Nat → Except E A) (max_retries : Nat)
    (base_delay max_delay : ℚ) (jitter : Nat → ℚ) :
    ∀ fuel attempt, fuel ≠ 0 →
      1 ≤ (retryLoop op max_retries base_delay max_delay jitter
        fuel attempt).calls := by
  intro fuel attempt hf
  rcases fuel with _ | fuel
  · exact absurd rfl hf
  · rcases hop : op attempt with e | a
    · by_cases hlast : attempt = max_retries
      · subst hlast
        simp [retryLoop, hop]
      · simp only [retryLoop, hop, if_neg hlast]
        omega
    · simp [retryLoop, hop]

theorem retryLoop_all_fail (op : Nat → Except E A) (max_retries : Nat)
    (base_delay max_delay : ℚ) (jitter : Nat → ℚ) :
    ∀ fuel attempt, fuel ≠ 0 → attempt + fuel = max_retries + 1 →
      (∀ k, attempt ≤ k → k ≤ max_retries → ∃ e, op k = Except.error e) →
      (retryLoop op max_retries base_delay max_delay jitter
          fuel attempt).calls = fuel ∧
        ∃ e, op max_retries = Except.error e ∧
          (retryLoop op max_retries base_delay max_delay jitter
            fuel attempt).result = RetryOutcome.exhausted e := by
  intro fuel
  induction fuel with
  | zero => intro attempt hnz; exact absurd rfl hnz
  | succ fuel ih =>
      intro attempt _ hinv hfail
      obtain ⟨e, hop⟩ := hfail attempt (Nat.le_refl _) (by omega)
      by_cases hlast : attempt = max_retries
      · subst hlast
        have hfuel : fuel = 0 := by omega
        subst hfuel
        exact ⟨by simp [retryLoop, hop], e, hop, by simp [retryLoop, hop]⟩
      · have hrec := ih (attempt + 1) (by omega) (by omega)
          (fun k hk hk' => hfail k (by omega) hk')
        simp only [retryLoop, hop, if_neg hlast]
        exact ⟨by simp [hrec.1], hrec.2⟩

theorem retryLoop_first_success (op : Nat → Except E A) (max_retries : Nat)
    (base_delay max_delay : ℚ) (jitter : Nat → ℚ) :
    ∀ fuel attempt k a, attempt ≤ k → k < attempt + fuel → k ≤ max_retries →
      (∀ i, attempt ≤ i → i < k → ∃ e, op i = Except.error e) →
      op k = Except.ok a →
      (retryLoop op max_retries base_delay max_delay jitter
          fuel attempt).result = RetryOutcome.ok a ∧
        (retryLoop op max_retries base_delay max_delay jitter
          fuel attempt).calls = k - attempt + 1 := by
  intro fuel
  induction fuel with
  | zero => intro attempt k a h1 h2; omega
  | succ fuel ih =>
      intro attempt k a h1 h2 h3 hbefore hok
      by_cases heq : attempt = k
      · subst heq
        simp [retryLoop, hok]
      · obtain ⟨e, hop⟩ := hbefore attempt (Nat.le_refl _) (by omega)
        have hlast : attempt ≠ max_retries := by omega
        have hrec := ih (attempt + 1) k a (by omega) (by omega) h3
          (fun i hi hi' => hbefore i (by omega) hi') hok
        simp only [retryLoop, hop, if_neg hlast]
        refine ⟨by simp [hrec.1], ?_⟩
        simp only [hrec.2]
        omega

theorem retryLoop_delays (op : Nat → Except E A) (max_retries : Nat)
    (base_delay max_delay : ℚ) (jitter : Nat → ℚ) :
    ∀ fuel attempt, attempt + fuel = max_retries + 1 →
      (retryLoop op max_retries base_delay max_delay jitter
          fuel attempt).delays =
        (List.range' attempt
            ((retryLoop op max_retries base_delay max_delay jitter
              fuel attempt).calls - 1)).map
          (fun k => preJitterDelay base_delay max_delay k *
            jitterFactor jitter k) := by
  intro fuel
  induction fuel with
  | zero => intro attempt hinv; simp [retryLoop]
  | succ fuel ih =>
      intro attempt hinv
      rcases hop : op attempt with e | a
      · by_cases hlast : attempt = max_retries
        · subst hlast
          simp [retryLoop, hop]
        · have hfuel : fuel ≠ 0 := by omega
          have hpos := retryLoop_calls_pos op max_retries base_delay max_delay
            jitter fuel (attempt + 1) hfuel
          have hrec := ih (attempt + 1) (by omega)
          simp only [retryLoop, hop, if_neg hlast]
          have hcount : (retryLoop op max_retries base_delay max_delay jitter
              fuel (attempt + 1)).calls - 1 + 1 =
              (retryLoop op max_retries base_delay max_delay jitter
                fuel (attempt + 1)).calls := by omega
          simp only [Nat.add_sub_cancel]
          rw [← hcount, List.range'_succ, List.map_cons]
          simp [hrec, hcount]
      · simp [retryLoop, hop]

/-! ## Batch dispatch and pipeline (`pipeline.py` lines 113–235)

The external behavior is captured by three oracles, indexed by the batch's
position `i` in the chunk list:

* `api i b` — combined outcome of `call_minimax_vision` +
  `extract_prompt_from_response` for batch `b`: `Except.ok text` or
  `Except.error e` (`str(e)` of the raised exception);
* `batchExc i b` — `some e` when an exception escapes the
  `process_image_batch` awaited inside `process_single_batch`
  (pipeline.py line 195), caught at line 196;
* `gatherExc i b` — `some e` when `asyncio.gather(..., return_exceptions=True)`
  hands back an exception object for this task (pipeline.py line 226),
  e.g. a `BaseException` that `except Exception` does not catch. -/

/-- `"API 调用失败: {e}"` (pipeline.py line 155). -/
def apiFailMsg (e : String) : String := "API 调用失败: " ++ e

/-- `"批次处理失败: {e}"` (pipeline.py lines 199 and 229). -/
def batchFailMsg (e : String) : String := "批次处理失败: " ++ e

/-- `process_image_batch` (pipeline.py lines 113–159): one API call for the
whole batch; on success the single generated prompt is appended once for a
singleton batch or duplicated across every image otherwise; any exception is
converted to one `(path, error, False)` tuple per image. -/
def process_image_batch (api : List α → Except String String)
    (image_paths : List α) : List (α × String × Bool) :=
  match api image_paths with
  | Except.error e => image_paths.map (fun p => (p, apiFailMsg e, false))
  | Except.ok generated_prompt =>
      match image_paths with
      | [p] => [(p, generated_prompt, true)]
      | _ => image_paths.map (fun p => (p, generated_prompt, true))

/-- `process_single_batch` (pipeline.py lines 193–199): wraps
`process_image_batch`, converting an escaping exception into failure tuples
for the whole batch. -/
def process_single_batch (api : List α → Except String String)
    (batchExc : List α → Option String) (batch : List α) :
    List (α × String × Bool) :=
  match batchExc batch with
  | some e => batch.map (fun p => (p, batchFailMsg e, false))
  | none => process_image_batch api batch

/-- One entry of the `for i, batch_result in enumerate(batch_results)` loop
(pipeline.py lines 222–232): an exception captured by `gather` becomes
failure tuples for `batches[i]`; a non-empty list result is appended as-is
(`elif batch_result and isinstance(batch_result, list)` drops a falsy, i.e.
empty, result list). -/
def batchResult (api : Nat → List α → Except String String)
    (batchExc : Nat → List α → Option String)
    (gatherExc : Nat → List α → Option String)
    (i : Nat) (batch : List α) : List (α × String × Bool) :=
  match gatherExc i batch with
  | some e => batch.map (fun p => (p, batchFailMsg e, false))
  | none =>
      let r := process_single_batch (api i) (batchExc i) batch
      if r.isEmpty then [] else r

/-- `process_images_pipeline` (pipeline.py lines 162–235): chunk the input,
run every batch (the semaphore only bounds concurrency; `asyncio.gather`
returns results in task order), then concatenate the per-batch results in
batch order. -/
def process_images_pipeline (maxBytes : Nat) (statSize : α → Option Nat)
    (api : Nat → List α → Except String String)
    (batchExc : Nat → List α → Option String)
    (gatherExc : Nat → List α → Option String)
    (image_paths : List α) : List (α × String × Bool) :=
  if image_paths.isEmpty then []
  else
    let batches := dynamic_chunk_images maxBytes
      (fun p => some (estimate_base64_size statSize p)) image_paths
    (batches.enum.map
      (fun ib => batchResult api batchExc gatherExc ib.1 ib.2)).flatten

theorem map_fst_comp_pair (s : String) (b : Bool) :
    ∀ l : List α, l.map (Prod.fst ∘ fun p => (p, s, b)) = l := by
  intro l
  induction l with
  | nil => rfl
  | cons p rest ih => simp [ih]

theorem process_image_batch_map_fst (api : List α → Except String String)
    (image_paths : List α) :
    (process_image_batch api image_paths).map Prod.fst = image_paths := by
  rcases h : api image_paths with e | t
  · simp [process_image_batch, h, map_fst_comp_pair]
  · rcases image_paths with _ | ⟨p, _ | ⟨q, rest⟩⟩ <;>
      simp [process_image_batch, h, map_fst_comp_pair]

theorem process_single_batch_map_fst (api : List α → Except String String)
    (batchExc : List α → Option String) (batch : List α) :
    (process_single_batch api batchExc batch).map Prod.fst = batch := by
  rcases h : batchExc batch with _ | e
  · simpa [process_single_batch, h] using
      process_image_batch_map_fst api batch
  · simp [process_single_batch, h, map_fst_comp_pair]

theorem batchResult_map_fst (api : Nat → List α → Except String String)
    (batchExc : Nat → List α → Option String)
    (gatherExc : Nat → List α → Option String) (i : Nat) (batch : List α) :
    (batchResult api batchExc gatherExc i batch).map Prod.fst = batch := by
  rcases h : gatherExc i batch with _ | e
  · have hb := process_single_batch_map_fst (api i) (batchExc i) batch
    rcases hr : process_single_batch (api i) (batchExc i) batch with _ | ⟨x, xs⟩
    · rw [hr] at hb
      simp only [List.map_nil] at hb
      subst hb
      simp [batchResult, h, hr]
    · rw [hr] at hb
      simp [batchResult, h, hr, hb]
  · simp [batchResult, h, map_fst_comp_pair]

theorem process_images_pipeline_map_fst (maxBytes : Nat)
    (statSize : α → Option Nat) (api : Nat → List α → Except String String)
    (batchExc : Nat → List α → Option String)
    (gatherExc : Nat → List α → Option String) (image_paths : List α) :
    (process_images_pipeline maxBytes statSize api batchExc gatherExc
        image_paths).map Prod.fst =
      image_paths.filter
        (keptFile maxBytes (fun p => some (estimate_base64_size statSize p))) := by
  by_cases hemp : image_paths.isEmpty
  · rw [List.isEmpty_iff] at hemp
    simp [process_images_pipeline, hemp]
  · rw [process_images_pipeline, if_neg hemp, List.map_flatten,
      List.map_map, ← dynamic_chunk_images_flatten maxBytes
        (fun p => some (estimate_base64_size statSize p)) image_paths]
    congr 1
    calc (dynamic_chunk_images maxBytes
            (fun p => some (estimate_base64_size statSize p))
            image_paths).enum.map
          (List.map Prod.fst ∘ fun ib => batchResult api batchExc gatherExc ib.1 ib.2)
        = (dynamic_chunk_images maxBytes
            (fun p => some (estimate_base64_size statSize p))
            image_paths).enum.map Prod.snd := by
          apply List.map_congr_left
          intro ib _
          exact batchResult_map_fst api batchExc gatherExc ib.1 ib.2
      _ = _ := List.enum_map_snd _

theorem mem_batchResult_of_gatherExc (api : Nat → List α → Except String String)
    (batchExc : Nat → List α → Option String)
    (gatherExc : Nat → List α → Option String) (i : Nat) (batch : List α)
    (e : String) (hg : gatherExc i batch = some e) :
    ∀ p ∈ batch, (p, batchFailMsg e, false) ∈
      batchResult api batchExc gatherExc i batch := by
  intro p hp
  simp only [batchResult, hg]
  exact List.mem_map_of_mem _ hp

theorem mem_pipeline_of_mem_batchResult (maxBytes : Nat)
    (statSize : α → Option Nat) (api : Nat → List α → Except String String)
    (batchExc : Nat → List α → Option String)
    (gatherExc : Nat → List α → Option String) (image_paths : List α)
    (i : Nat) (batch : List α) (r : α × String × Bool)
    (hib : (dynamic_chunk_images maxBytes
      (fun p => some (estimate_base64_size statSize p)) image_paths)[i]? =
        some batch)
    (hr : r ∈ batchResult api batchExc gatherExc i batch) :
    r ∈ process_images_pipeline maxBytes statSize api batchExc gatherExc
      image_paths := by
  have hnil : image_paths.isEmpty = false := by
    rcases hemp : image_paths.isEmpty with _ | _
    · rfl
    · rw [List.isEmpty_iff] at hemp
      rw [hemp] at hib
      simp [dynamic_chunk_images] at hib
  have hmem : (i, batch) ∈ (dynamic_chunk_images maxBytes
      (fun p => some (estimate_base64_size statSize p)) image_paths).enum :=
    List.mk_mem_enum_iff_getElem?.mpr hib
  rw [process_images_pipeline, if_neg (by simp [hnil])]
  rw [List.mem_flatten]
  exact ⟨batchResult api batchExc gatherExc i batch,
    List.mem_map_of_mem _ hmem, hr⟩

theorem mem_pipeline_elim (maxBytes : Nat)
    (statSize : α → Option Nat) (api : Nat → List α → Except String String)
    (batchExc : Nat → List α → Option String)
    (gatherExc : Nat → List α → Option String) (image_paths : List α)
    (r : α × String × Bool)
    (hr : r ∈ process_images_pipeline maxBytes statSize api batchExc gatherExc
      image_paths) :
    ∃ i batch, (dynamic_chunk_images maxBytes
      (fun p => some (estimate_base64_size statSize p)) image_paths)[i]? =
        some batch ∧ r ∈ batchResult api batchExc gatherExc i batch := by
  by_cases hemp : image_paths.isEmpty
  · rw [process_images_pipeline, if_pos hemp] at hr
    exact absurd hr (List.not_mem_nil r)
  · rw [process_images_pipeline, if_neg hemp, List.mem_flatten] at hr
    obtain ⟨l, hl, hrl⟩ := hr
    rw [List.mem_map] at hl
    obtain ⟨⟨i, batch⟩, hib, rfl⟩ := hl
    exact ⟨i, batch, List.mk_mem_enum_iff_getElem?.mp hib, hrl⟩

theorem mem_batchResult_cases (api : Nat → List α → Except String String)
    (batchExc : Nat → List α → Option String)
    (gatherExc : Nat → List α → Option String) (i : Nat) (batch : List α)
    (r : α × String × Bool)
    (hr : r ∈ batchResult api batchExc gatherExc i batch) :
    (r.2.2 = true ∧ r.1 ∈ batch ∧ api i batch = Except.ok r.2.1) ∨
      (r.2.2 = false ∧ ∃ e, r.2.1 = apiFailMsg e ∨ r.2.1 = batchFailMsg e) := by
  rcases hg : gatherExc i batch with _ | e
  · rcases hb : batchExc i batch with _ | e
    · rcases ha : api i batch with e | t
      · simp only [batchResult, hg, process_single_batch, hb,
          process_image_batch, ha] at hr
        have hr' : r ∈ batch.map (fun p => (p, apiFailMsg e, false)) := by
          by_cases hl : (batch.map (fun p => (p, apiFailMsg e, false))).isEmpty
          · rw [if_pos hl] at hr
            exact absurd hr (List.not_mem_nil r)
          · rwa [if_neg hl] at hr
        rw [List.mem_map] at hr'
        obtain ⟨p, _, rfl⟩ := hr'
        exact Or.inr ⟨rfl, e, Or.inl rfl⟩
      · have hr' : r ∈ batch.map (fun p => (p, t, true)) := by
          rcases batch with _ | ⟨p, _ | ⟨q, rest⟩⟩ <;>
            · simp only [batchResult, hg, process_single_batch, hb,
                process_image_batch, ha] at hr
              simpa using hr
        rw [List.mem_map] at hr'
        obtain ⟨p, hp, rfl⟩ := hr'
        exact Or.inl ⟨rfl, hp, rfl⟩
    · simp only [batchResult, hg, process_single_batch, hb] at hr
      have hr' : r ∈ batch.map (fun p => (p, batchFailMsg e, false)) := by
        by_cases hl : (batch.map (fun p => (p, batchFailMsg e, false))).isEmpty
        · rw [if_pos hl] at hr
          exact absurd hr (List.not_mem_nil r)
        · rwa [if_neg hl] at hr
      rw [List.mem_map] at hr'
      obtain ⟨p, _, rfl⟩ := hr'
      exact Or.inr ⟨rfl, e, Or.inr rfl⟩
  · simp only [batchResult, hg] at hr
    rw [List.mem_map] at hr
    obtain ⟨p, _, rfl⟩ := hr
    exact Or.inr ⟨rfl, e, Or.inr rfl⟩

/-! ## Manifest records (`manifest.py`)

`ImageRecord` / `ManifestManager`.  A CSV row, as produced by
`csv.DictWriter.writerow(record.to_dict())` and read back by
`csv.DictReader` over the five-column header, is a dictionary with the five
string fields of the schema; the `csv` module itself (quoting and file I/O)
is an external collaborator assumed to round-trip the field values exactly.
Python `str()` of an `int` and `int()` of a string are modelled as a decimal
printer and a strict decimal parser with an optional leading minus sign
(`int()` also tolerates surrounding whitespace, a leading `+`, underscores
and non-ASCII digits; no claim depends on those extra inputs, and every
output of `str()` lies in the common strict subset). -/

/-- ASCII digit for a decimal digit value. -/
def digitChar (d : Nat) : Char := Char.ofNat (48 + d)

/-- Decimal digit value of an ASCII digit. -/
def charDigit (c : Char) : Nat := c.toNat - 48

def isDigitChar (c : Char) : Bool := decide (48 ≤ c.toNat) && decide (c.toNat ≤ 57)

/-- Python `str(n)` for a non-negative integer: most-significant digit
first. -/
def natToDecChars (n : Nat) : List Char :=
  if n = 0 then ['0'] else ((Nat.digits 10 n).map digitChar).reverse

/-- Strict decimal parse of an unsigned digit string (`none` models
`int()` raising `ValueError`). -/
def decCharsToNat? (cs : List Char) : Option Nat :=
  if cs.isEmpty then none
  else if cs.all isDigitChar then
    some (Nat.ofDigits 10 ((cs.map charDigit).reverse))
  else none

/-- Python `str(i)` for an `int`. -/
def str_of_int (i : Int) : String :=
  if i < 0 then String.mk ('-' :: natToDecChars i.natAbs)
  else String.mk (natToDecChars i.natAbs)

/-- Python `int(s)` (strict subset, see section comment). -/
def int_of_str? (s : String) : Option Int :=
  match s.data with
  | [] => none
  | c :: rest =>
      if c = '-' then (decCharsToNat? rest).map (fun n => -(n : Int))
      else (decCharsToNat? (c :: rest)).map (fun n => (n : Int))

/-- `ProcessStatus` (manifest.py lines 11–15). -/
inductive ProcessStatus where
  | pending
  | approved
  | rejected
  deriving DecidableEq, Repr

/-- Status `.value` string of the enum member. -/
def ProcessStatus.value : ProcessStatus → String
  | pending => "pending"
  | approved => "approved"
  | rejected => "rejected"

/-- `ProcessStatus(s)`: enum lookup by value, `none` models `ValueError`. -/
def ProcessStatus.ofValue? (s : String) : Option ProcessStatus :=
  if s = "pending" then some ProcessStatus.pending
  else if s = "approved" then some ProcessStatus.approved
  else if s = "rejected" then some ProcessStatus.rejected
  else none

/-- `ImageRecord` (manifest.py lines 18–25). `retry_cnt` is a Python `int`. -/
structure ImageRecord where
  filepath : String
  prompt_en : String := ""
  prompt_cn : String := ""
  status : ProcessStatus := ProcessStatus.pending
  retry_cnt : Int := 0
  deriving DecidableEq, Repr

/-- One CSV row: the five schema columns, all string-valued. -/
structure RowDict where
  filepath : String
  prompt_en : String
  prompt_cn : String
  status : String
  retry_cnt : String
  deriving DecidableEq, Repr

/-- `ImageRecord.to_dict` (manifest.py lines 27–35). -/
def ImageRecord.to_dict (r : ImageRecord) : RowDict :=
  ⟨r.filepath, r.prompt_en, r.prompt_cn, r.status.value, str_of_int r.retry_cnt⟩

/-- `ImageRecord.from_dict` (manifest.py lines 37–46); `none` models the
`ValueError` raised by `ProcessStatus(...)` or `int(...)`. -/
def ImageRecord.from_dict (d : RowDict) : Option ImageRecord :=
  match ProcessStatus.ofValue? d.status, int_of_str? d.retry_cnt with
  | some st, some rc => some ⟨d.filepath, d.prompt_en, d.prompt_cn, st, rc⟩
  | _, _ => none

/-- `ManifestManager.load_from_csv` (manifest.py lines 56–70): parse each
row, skipping (with a printed message) rows whose parse raises. -/
def load_from_csv (rows : List RowDict) : List ImageRecord :=
  rows.filterMap ImageRecord.from_dict

/-- `ManifestManager.save_to_csv` (manifest.py lines 72–83): one row per
record, in order. -/
def save_to_csv (records : List ImageRecord) : List RowDict :=
  records.map ImageRecord.to_dict

/-- `ManifestManager.add_or_update_record` (manifest.py lines 85–111):
update the first record with the given filepath (text fields only when the
new value is truthy, status always) or append a fresh record. -/
def add_or_update_record (records : List ImageRecord)
    (filepath prompt_en prompt_cn : String) (status : ProcessStatus) :
    List ImageRecord :=
  match records with
  | [] =>
      [{ filepath := filepath, prompt_en := prompt_en, prompt_cn := prompt_cn,
         status := status, retry_cnt := 0 }]
  | r :: rest =>
      if r.filepath = filepath then
        { r with
            prompt_en := if prompt_en ≠ "" then prompt_en else r.prompt_en,
            prompt_cn := if prompt_cn ≠ "" then prompt_cn else r.prompt_cn,
            status := status } :: rest
      else r :: add_or_update_record rest filepath prompt_en prompt_cn status

/-- `ManifestManager.update_record_status` (manifest.py lines 121–127). -/
def update_record_status (records : List ImageRecord) (filepath : String)
    (status : ProcessStatus) : List ImageRecord × Bool :=
  match records with
  | [] => ([], false)
  | r :: rest =>
      if r.filepath = filepath then ({ r with status := status } :: rest, true)
      else
        let t := update_record_status rest filepath status
        (r :: t.1, t.2)

/-- `ManifestManager.increment_retry_count` (manifest.py lines 129–135). -/
def increment_retry_count (records : List ImageRecord) (filepath : String) :
    List ImageRecord × Bool :=
  match records with
  | [] => ([], false)
  | r :: rest =>
      if r.filepath = filepath then
        ({ r with retry_cnt := r.retry_cnt + 1 } :: rest, true)
      else
        let t := increment_retry_count rest filepath
        (r :: t.1, t.2)

/-- `ManifestManager.import_from_directory` (manifest.py lines 173–198):
the directory glob is abstracted as the list of relative path strings in
traversal order; paths not yet present are added as fresh pending records. -/
def import_from_directory (records : List ImageRecord)
    (relative_paths : List String) : List ImageRecord × Nat :=
  match relative_paths with
  | [] => (records, 0)
  | rel :: rest =>
      if records.any (fun r => r.filepath = rel) then
        import_from_directory records rest
      else
        let t := import_from_directory
          (add_or_update_record records rel "" "" ProcessStatus.pending) rest
        (t.1, t.2 + 1)

/-- The §3 invariant: every `filepath` in a manifest is unique. -/
def UniqueFilepaths (records : List ImageRecord) : Prop :=
  records.Pairwise (fun a b => a.filepath ≠ b.filepath)

/-- Sample operation: fails on attempts 0–2, succeeds with 42 afterwards. -/
def opFailThrice : Nat → Except String Nat :=
  fun k => if k < 3 then Except.error "boom" else Except.ok 42

/-- Sample operation that fails on every attempt. -/
def opAlwaysFail : Nat → Except String Nat := fun _ => Except.error "boom"

/-- Sample API oracle that always succeeds with the text `"txt"`. -/
def apiOkTxt : List Nat → Except String String := fun _ => Except.ok "txt"

/-- A sample well-formed record. -/
def sampleRecord : ImageRecord :=
  { filepath := "images/cat.jpg", prompt_en := "a cat", prompt_cn := "一只猫",
    status := ProcessStatus.approved, retry_cnt := 2 }

/-- A well-formed CSV row; repeating it exercises duplicate filepaths. -/
def dupRow : RowDict :=
  { filepath := "a.jpg", prompt_en := "", prompt_cn := "", status := "pending",
    retry_cnt := "0" }

theorem digitChar_charDigit (d : Nat) (h : d < 10) :
    charDigit (digitChar d) = d ∧ isDigitChar (digitChar d) = true := by
  interval_cases d <;> exact ⟨by decide, by decide⟩

theorem decCharsToNat?_natToDecChars (n : Nat) :
    decCharsToNat? (natToDecChars n) = some n := by
  by_cases h0 : n = 0
  · subst h0
    decide
  · have hchars : natToDecChars n = ((Nat.digits 10 n).map digitChar).reverse := by
      simp [natToDecChars, h0]
    have hdig : ∀ d ∈ Nat.digits 10 n, d < 10 := fun d hd =>
      Nat.digits_lt_base (by norm_num) hd
    have hne : Nat.digits 10 n ≠ [] := Nat.digits_ne_nil_iff_ne_zero.mpr h0
    have hempty : (natToDecChars n).isEmpty = false := by
      rw [hchars]
      simpa [List.isEmpty_iff] using hne
    have hall : (natToDecChars n).all isDigitChar = true := by
      rw [hchars, List.all_eq_true]
      intro c hc
      rw [List.mem_reverse, List.mem_map] at hc
      obtain ⟨d, hd, rfl⟩ := hc
      exact (digitChar_charDigit d (hdig d hd)).2
    rw [decCharsToNat?, hempty, if_neg (by simp), hall, if_pos rfl]
    have hback : (((natToDecChars n).map charDigit).reverse) = Nat.digits 10 n := by
      rw [hchars, List.map_reverse, List.reverse_reverse, List.map_map]
      have : ∀ d ∈ Nat.digits 10 n, (charDigit ∘ digitChar) d = id d := fun d hd =>
        (digitChar_charDigit d (hdig d hd)).1
      rw [List.map_congr_left this, List.map_id]
    rw [hback, Nat.ofDigits_digits]

theorem natToDecChars_head_digit (n : Nat) :
    ∃ c rest, natToDecChars n = c :: rest ∧ isDigitChar c = true := by
  by_cases h0 : n = 0
  · exact ⟨'0', [], by simp [natToDecChars, h0], by decide⟩
  · have hdig : ∀ d ∈ Nat.digits 10 n, d < 10 := fun d hd =>
      Nat.digits_lt_base (by norm_num) hd
    have hne : Nat.digits 10 n ≠ [] := Nat.digits_ne_nil_iff_ne_zero.mpr h0
    rcases hc : ((Nat.digits 10 n).map digitChar).reverse with _ | ⟨c, rest⟩
    · rw [List.reverse_eq_nil_iff, List.map_eq_nil_iff] at hc
      exact absurd hc hne
    · refine ⟨c, rest, by simp [natToDecChars, h0, hc], ?_⟩
      have : c ∈ ((Nat.digits 10 n).map digitChar).reverse := by
        rw [hc]; exact List.mem_cons_self c rest
      rw [List.mem_reverse, List.mem_map] at this
      obtain ⟨d, hd, rfl⟩ := this
      exact (digitChar_charDigit d (hdig d hd)).2

theorem int_of_str_of_int (i : Int) (h : 0 ≤ i) :
    int_of_str? (str_of_int i) = some i := by
  have hlt : ¬ i < 0 := by omega
  obtain ⟨c, rest, hcr, hdc⟩ := natToDecChars_head_digit i.natAbs
  have hcm : c ≠ '-' := by
    intro hceq
    subst hceq
    exact absurd hdc (by decide)
  rw [str_of_int, if_neg hlt]
  rw [int_of_str?]
  simp only [hcr]
  rw [if_neg hcm, ← hcr, decCharsToNat?_natToDecChars]
  simp [Int.natAbs_of_nonneg h]

theorem ofValue?_value (s : ProcessStatus) :
    ProcessStatus.ofValue? s.value = some s := by
  cases s <;> rfl

theorem from_dict_to_dict (r : ImageRecord) (h : 0 ≤ r.retry_cnt) :
    ImageRecord.from_dict (ImageRecord.to_dict r) = some r := by
  rw [ImageRecord.from_dict, ImageRecord.to_dict]
  simp only [ofValue?_value, int_of_str_of_int r.retry_cnt h]

theorem load_save_round (records : List ImageRecord)
    (h : ∀ r ∈ records, 0 ≤ r.retry_cnt) :
    load_from_csv (save_to_csv records) = records := by
  rw [load_from_csv, save_to_csv, List.filterMap_map]
  induction records with
  | nil => rfl
  | cons r rest ih =>
      rw [List.filterMap_cons]
      simp only [Function.comp_apply,
        from_dict_to_dict r (h r (List.mem_cons_self r rest))]
      rw [ih (fun q hq => h q (List.mem_cons_of_mem r hq))]

theorem from_dict_filepath (d : RowDict) (r : ImageRecord)
    (h : ImageRecord.from_dict d = some r) : r.filepath = d.filepath := by
  rw [ImageRecord.from_dict] at h
  rcases hs : ProcessStatus.ofValue? d.status with _ | st <;>
    rcases hi : int_of_str? d.retry_cnt with _ | rc <;>
      rw [hs, hi] at h <;> simp at h
  rw [← h]

theorem load_from_csv_unique (rows : List RowDict)
    (h : rows.Pairwise (fun a b => a.filepath ≠ b.filepath)) :
    UniqueFilepaths (load_from_csv rows) := by
  rw [UniqueFilepaths, load_from_csv]
  rw [List.pairwise_filterMap]
  refine h.imp_of_mem ?_
  intro a b _ _ hab r hr q hq
  rw [from_dict_filepath a r hr, from_dict_filepath b q hq]
  exact hab

theorem mem_add_or_update_filepath (filepath prompt_en prompt_cn : String)
    (status : ProcessStatus) :
    ∀ (records : List ImageRecord),
      ∀ x ∈ add_or_update_record records filepath prompt_en prompt_cn status,
        x.filepath = filepath ∨ x.filepath ∈ records.map ImageRecord.filepath := by
  intro records
  induction records with
  | nil =>
      intro x hx
      simp [add_or_update_record] at hx
      subst hx
      exact Or.inl rfl
  | cons r rest ih =>
      intro x hx
      rw [add_or_update_record] at hx
      by_cases hr : r.filepath = filepath
      · rw [if_pos hr] at hx
        rcases List.mem_cons.mp hx with rfl | hx
        · exact Or.inl hr
        · exact Or.inr (by simp [List.mem_map]; exact Or.inr ⟨x, hx, rfl⟩)
      · rw [if_neg hr] at hx
        rcases List.mem_cons.mp hx with rfl | hx
        · exact Or.inr (by simp)
        · rcases ih x hx with hx' | hx'
          · exact Or.inl hx'
          · exact Or.inr (by simp [List.mem_map] at hx' ⊢; exact Or.inr hx')

theorem add_or_update_unique (filepath prompt_en prompt_cn : String)
    (status : ProcessStatus) :
    ∀ (records : List ImageRecord), UniqueFilepaths records →
      UniqueFilepaths
        (add_or_update_record records filepath prompt_en prompt_cn status) := by
  intro records
  induction records with
  | nil =>
      intro _
      simp [add_or_update_record, UniqueFilepaths]
  | cons r rest ih =>
      intro hu
      rw [UniqueFilepaths, List.pairwise_cons] at hu
      rw [UniqueFilepaths, add_or_update_record]
      by_cases hr : r.filepath = filepath
      · rw [if_pos hr, List.pairwise_cons]
        exact ⟨fun q hq => hu.1 q hq, hu.2⟩
      · rw [if_neg hr, List.pairwise_cons]
        refine ⟨?_, ih hu.2⟩
        intro q hq
        rcases mem_add_or_update_filepath filepath prompt_en prompt_cn status
          rest q hq with hq' | hq'
        · rw [hq']; exact hr
        · rw [List.mem_map] at hq'
          obtain ⟨q', hq', hfp⟩ := hq'
          rw [← hfp]
          exact hu.1 q' hq'

theorem update_record_status_map_filepath (filepath : String)
    (status : ProcessStatus) :
    ∀ (records : List ImageRecord),
      (update_record_status records filepath status).1.map ImageRecord.filepath =
        records.map ImageRecord.filepath := by
  intro records
  induction records with
  | nil => rfl
  | cons r rest ih =>
      rw [update_record_status]
      by_cases hr : r.filepath = filepath
      · rw [if_pos hr]
        simp
      · rw [if_neg hr]
        simpa using ih

theorem update_record_status_unique (filepath : String)
    (status : ProcessStatus) (records : List ImageRecord)
    (hu : UniqueFilepaths records) :
    UniqueFilepaths (update_record_status records filepath status).1 := by
  rw [UniqueFilepaths, ← List.pairwise_map (f := ImageRecord.filepath)]
  rw [update_record_status_map_filepath]
  rw [UniqueFilepaths, ← List.pairwise_map (f := ImageRecord.filepath)] at hu
  exact hu

theorem increment_retry_count_map_filepath (filepath : String) :
    ∀ (records : List ImageRecord),
      (increment_retry_count records filepath).1.map ImageRecord.filepath =
        records.map ImageRecord.filepath := by
  intro records
  induction records with
  | nil => rfl
  | cons r rest ih =>
      rw [increment_retry_count]
      by_cases hr : r.filepath = filepath
      · rw [if_pos hr]
        simp
      · rw [if_neg hr]
        simpa using ih

theorem increment_retry_count_unique (filepath : String)
    (records : List ImageRecord) (hu : UniqueFilepaths records) :
    UniqueFilepaths (increment_retry_count records filepath).1 := by
  rw [UniqueFilepaths, ← List.pairwise_map (f := ImageRecord.filepath)]
  rw [increment_retry_count_map_filepath]
  rw [UniqueFilepaths, ← List.pairwise_map (f := ImageRecord.filepath)] at hu
  exact hu

theorem import_from_directory_unique :
    ∀ (relative_paths : List String) (records : List ImageRecord),
      UniqueFilepaths records →
      UniqueFilepaths (import_from_directory records relative_paths).1 := by
  intro relative_paths
  induction relative_paths with
  | nil => intro records hu; exact hu
  | cons rel rest ih =>
      intro records hu
      rw [import_from_directory]
      by_cases hex : records.any (fun r => r.filepath = rel)
      · rw [if_pos hex]
        exact ih records hu
      · rw [if_neg hex]
        exact ih _ (add_or_update_unique rel "" "" ProcessStatus.pending
          records hu)

/-! ## Claim theorems -/

/-- C1: for every input list, the concatenation of the chunks yielded by
`dynamic_chunk_images` equals the input list in order, minus exactly the
size-skipped files (those whose estimate plus the base overhead exceeds
`max_bytes`); in particular the empty input yields no chunks. -/
theorem claim_chunk_concat (maxBytes : Nat) (statSize : α → Option Nat)
    (image_paths : List α) :
    (dynamic_chunk_images maxBytes
        (fun p => some (estimate_base64_size statSize p)) image_paths).flatten =
      image_paths.filter
        (fun p => decide (estimate_base64_size statSize p + base_overhead ≤ maxBytes)) ∧
      dynamic_chunk_images maxBytes
        (fun p => some (estimate_base64_size statSize p)) ([] : List α) = [] := by
  constructor
  · exact dynamic_chunk_images_flatten maxBytes
      (fun p => some (estimate_base64_size statSize p)) image_paths
  · rfl

/-- C2: every chunk yielded by `dynamic_chunk_images` carries an estimated
payload that, plus the base overhead, fits in `max_bytes`; and no file whose
own estimate plus the base overhead exceeds `max_bytes` is ever placed in a
chunk. -/
theorem claim_chunk_size_bound (maxBytes : Nat) (sizeFn : α → Option Nat)
    (image_paths : List α) (c : List α)
    (hc : c ∈ dynamic_chunk_images maxBytes sizeFn image_paths) :
    chunkSize sizeFn c + base_overhead ≤ maxBytes ∧
      ∀ p ∈ c, ∃ sz, sizeFn p = some sz ∧ sz + base_overhead ≤ maxBytes := by
  rcases image_paths with _ | ⟨p, rest⟩
  · simp [dynamic_chunk_images] at hc
  · rw [dynamic_chunk_images, if_neg (by simp)] at hc
    have h := chunkLoop_bounded maxBytes sizeFn (p :: rest) [] 0 rfl
      (fun h => absurd rfl h) (by simp) c hc
    refine ⟨h.1, fun q hq => ?_⟩
    have hk := h.2 q hq
    rw [keptFile] at hk
    rcases hs : sizeFn q with _ | sz
    · rw [hs] at hk
      simp at hk
    · rw [hs] at hk
      simp only [decide_eq_true_eq] at hk
      exact ⟨sz, rfl, hk⟩

theorem claim_chunk_size_bound_witness :
    chunkSize (fun _ => some 3000) ([1, 2] : List Nat) + base_overhead ≤ 10000 ∧
      ∀ p ∈ ([1, 2] : List Nat), ∃ sz, (fun _ => some 3000) p = some sz ∧
        sz + base_overhead ≤ 10000 :=
  claim_chunk_size_bound 10000 (fun _ => some 3000) [1, 2, 3, 4] [1, 2]
    (by decide)

/-- C6: the claim says a file whose size estimation fails with an I/O error
is skipped and appears in no yielded chunk.  The code does the opposite:
`estimate_base64_size` swallows the `OSError` and returns `0`, so with the
default 15 MiB `max_batch_size_bytes` the file passes the size check
(`0 + 2048 ≤ 15728640`) and lands in a chunk — the `except OSError` skip
path inside `dynamic_chunk_images` is dead for this call.  Evaluation at the
failing input: a single file whose `stat()` raises ends up in the single
yielded chunk. -/
theorem claim_estimation_failure_chunked :
    dynamic_chunk_images 15728640
        (fun p => some (estimate_base64_size (fun _ => none) p)) [0] = [[0]] ∧
      estimate_base64_size (fun _ => (none : Option Nat)) (0 : Nat) = 0 := by
  constructor <;> rfl

/-- C10: the flattened pipeline output preserves the input order of the
non-skipped files exactly — projecting the result tuples to their paths
yields precisely the input list filtered of size-skipped files, for every
behavior of the API and exception oracles. -/
theorem claim_pipeline_order (maxBytes : Nat) (statSize : α → Option Nat)
    (api : Nat → List α → Except String String)
    (batchExc : Nat → List α → Option String)
    (gatherExc : Nat → List α → Option String) (image_paths : List α) :
    (process_images_pipeline maxBytes statSize api batchExc gatherExc
        image_paths).map Prod.fst =
      image_paths.filter
        (fun p => decide (estimate_base64_size statSize p + base_overhead ≤ maxBytes)) :=
  process_images_pipeline_map_fst maxBytes statSize api batchExc gatherExc
    image_paths

/-- C3: for every behavior of the API, of exceptions escaping a batch task,
and of exceptions surfaced by `gather`, `process_images_pipeline` returns
(total function) a result set with exactly one tuple per non-size-skipped
input file occurrence; a chunk-level exception becomes a failure tuple for
every file of that chunk instead of propagating; and every tuple is either
API-generated text with `success = true` or an error-message string with
`success = false`. -/
theorem claim_pipeline_outcomes [DecidableEq α] (maxBytes : Nat)
    (statSize : α → Option Nat) (api : Nat → List α → Except String String)
    (batchExc : Nat → List α → Option String)
    (gatherExc : Nat → List α → Option String) (image_paths : List α) :
    (∀ p : α,
      ((process_images_pipeline maxBytes statSize api batchExc gatherExc
          image_paths).map Prod.fst).count p =
        (image_paths.filter
          (fun q => decide (estimate_base64_size statSize q + base_overhead ≤ maxBytes))).count p) ∧
    (∀ (i : Nat) (batch : List α) (e : String),
      (dynamic_chunk_images maxBytes
          (fun p => some (estimate_base64_size statSize p)) image_paths)[i]? =
        some batch →
      gatherExc i batch = some e →
      ∀ p ∈ batch, (p, batchFailMsg e, false) ∈
        process_images_pipeline maxBytes statSize api batchExc gatherExc
          image_paths) ∧
    (∀ r ∈ process_images_pipeline maxBytes statSize api batchExc gatherExc
        image_paths,
      (r.2.2 = true ∧ ∃ (i : Nat) (batch : List α),
        (dynamic_chunk_images maxBytes
            (fun p => some (estimate_base64_size statSize p)) image_paths)[i]? =
          some batch ∧ r.1 ∈ batch ∧ api i batch = Except.ok r.2.1) ∨
      (r.2.2 = false ∧ ∃ e, r.2.1 = apiFailMsg e ∨ r.2.1 = batchFailMsg e)) := by
  refine ⟨?_, ?_, ?_⟩
  · intro p
    rw [process_images_pipeline_map_fst maxBytes statSize api batchExc
      gatherExc image_paths]
    rfl
  · intro i batch e hib hg p hp
    exact mem_pipeline_of_mem_batchResult maxBytes statSize api batchExc
      gatherExc image_paths i batch _ hib
      (mem_batchResult_of_gatherExc api batchExc gatherExc i batch e hg p hp)
  · intro r hr
    obtain ⟨i, batch, hib, hrb⟩ := mem_pipeline_elim maxBytes statSize api
      batchExc gatherExc image_paths r hr
    rcases mem_batchResult_cases api batchExc gatherExc i batch r hrb with
      ⟨h1, h2, h3⟩ | h
    · exact Or.inl ⟨h1, i, batch, hib, h2, h3⟩
    · exact Or.inr h

theorem claim_pipeline_outcomes_witness :
    ((1 : Nat), batchFailMsg "boom", false) ∈
      process_images_pipeline 10000 (fun _ => some 1000)
        (fun _ _ => Except.ok "txt") (fun _ _ => none)
        (fun _ _ => some "boom") [1, 2] :=
  (claim_pipeline_outcomes 10000 (fun _ => some 1000)
      (fun _ _ => Except.ok "txt") (fun _ _ => none)
      (fun _ _ => some "boom") [1, 2]).2.1 0 [1, 2] "boom" (by decide) rfl
    1 (by decide)

/-- C4: `retry_async` with `max_retries = N` invokes the wrapped operation
at most `N + 1` times; exactly `N + 1` times — then failing with the
distinguished `RetryError` wrapping the last underlying exception — when
every invocation fails; and returns the result of the first successful
invocation when one succeeds. -/
theorem claim_retry_attempts (op : Nat → Except E A) (N : Nat)
    (base_delay max_delay : ℚ) (jitter : Nat → ℚ) :
    (retry_async op N base_delay max_delay jitter).calls ≤ N + 1 ∧
    ((∀ k, k ≤ N → ∃ e, op k = Except.error e) →
      (retry_async op N base_delay max_delay jitter).calls = N + 1 ∧
      ∃ e, op N = Except.error e ∧
        (retry_async op N base_delay max_delay jitter).result =
          RetryOutcome.exhausted e) ∧
    (∀ k a, k ≤ N → (∀ i, i < k → ∃ e, op i = Except.error e) →
      op k = Except.ok a →
      (retry_async op N base_delay max_delay jitter).result =
        RetryOutcome.ok a) := by
  refine ⟨?_, ?_, ?_⟩
  · exact retryLoop_calls_le op N base_delay max_delay jitter (N + 1) 0
  · intro hfail
    exact retryLoop_all_fail op N base_delay max_delay jitter (N + 1) 0
      (by omega) (by omega) (fun k _ hk => hfail k hk)
  · intro k a hk hbefore hok
    exact (retryLoop_first_success op N base_delay max_delay jitter (N + 1) 0
      k a (Nat.zero_le k) (by omega) hk
      (fun i _ hi => hbefore i hi) hok).1

theorem claim_retry_attempts_witness :
    (retry_async opAlwaysFail 2 1 60 (fun _ => 0)).calls = 2 + 1 ∧
      (retry_async opFailThrice 5 1 60 (fun _ => 0)).result =
        RetryOutcome.ok 42 :=
  ⟨((claim_retry_attempts opAlwaysFail 2 1 60 (fun _ => 0)).2.1
      (fun k _ => ⟨"boom", rfl⟩)).1,
    (claim_retry_attempts opFailThrice 5 1 60 (fun _ => 0)).2.2 3 42
      (by omega) (fun i hi => ⟨"boom", by rw [opFailThrice, if_pos hi]⟩)
      (by rw [opFailThrice]; norm_num)⟩

/-- C5: `process_image_batch` yields exactly one tuple per file of the
chunk, in the chunk's order, all sharing one outcome: the API's generated
text with `success = true` on success, one error message with
`success = false` on failure — no partial-chunk completion. -/
theorem claim_batch_atomic (api : List α → Except String String)
    (image_paths : List α) :
    ∃ t ok, process_image_batch api image_paths =
        image_paths.map (fun p => (p, t, ok)) ∧
      (∀ text, api image_paths = Except.ok text → t = text ∧ ok = true) ∧
      (∀ e, api image_paths = Except.error e →
        t = apiFailMsg e ∧ ok = false) := by
  rcases ha : api image_paths with e | t
  · refine ⟨apiFailMsg e, false, ?_, ?_, ?_⟩
    · rw [process_image_batch, ha]
    · intro text htext
      exact absurd htext (by simp)
    · intro e' he'
      simp only [Except.error.injEq] at he'
      subst he'
      exact ⟨rfl, rfl⟩
  · refine ⟨t, true, ?_, ?_, ?_⟩
    · rw [process_image_batch, ha]
      rcases image_paths with _ | ⟨p, _ | ⟨q, rest⟩⟩ <;> simp
    · intro text htext
      simp only [Except.ok.injEq] at htext
      subst htext
      exact ⟨rfl, rfl⟩
    · intro e' he'
      exact absurd he' (by simp)

theorem claim_batch_atomic_witness :
    ∃ t ok, process_image_batch apiOkTxt ([1, 2] : List Nat) =
        ([1, 2] : List Nat).map (fun p => (p, t, ok)) ∧
      (∀ text, apiOkTxt ([1, 2] : List Nat) = Except.ok text →
        t = text ∧ ok = true) ∧
      (∀ e, apiOkTxt ([1, 2] : List Nat) = Except.error e →
        t = apiFailMsg e ∧ ok = false) :=
  claim_batch_atomic apiOkTxt ([1, 2] : List Nat)

/-- C7: the backoff delays slept by `retry_async` are, for retry `k`, the
pre-jitter value `min(base_delay * 2 ^ k, max_delay)` scaled by the jitter
factor; the pre-jitter sequence is non-decreasing in `k` (for non-negative
`base_delay`), and every slept delay is at most `max_delay`. -/
theorem claim_retry_backoff (op : Nat → Except E A) (N : Nat)
    (base_delay max_delay : ℚ) (jitter : Nat → ℚ)
    (hb : 0 ≤ base_delay) (hM : 0 ≤ max_delay)
    (hj : ∀ k, 0 ≤ jitter k ∧ jitter k < 1) :
    (retry_async op N base_delay max_delay jitter).delays =
      (List.range' 0
          ((retry_async op N base_delay max_delay jitter).calls - 1)).map
        (fun k => preJitterDelay base_delay max_delay k *
          jitterFactor jitter k) ∧
    (∀ k l, k ≤ l →
      preJitterDelay base_delay max_delay k ≤
        preJitterDelay base_delay max_delay l) ∧
    (∀ d ∈ (retry_async op N base_delay max_delay jitter).delays,
      d ≤ max_delay) := by
  have hdel := retryLoop_delays op N base_delay max_delay jitter (N + 1) 0
    (by omega)
  refine ⟨hdel, ?_, ?_⟩
  · intro k l hkl
    apply min_le_min _ (le_refl max_delay)
    exact mul_le_mul_of_nonneg_left
      (pow_le_pow_right₀ (by norm_num) hkl) hb
  · intro d hd
    rw [retry_async] at hd
    rw [hdel] at hd
    rw [List.mem_map] at hd
    obtain ⟨k, _, rfl⟩ := hd
    have hpre0 : 0 ≤ preJitterDelay base_delay max_delay k :=
      le_min (mul_nonneg hb (pow_nonneg (by norm_num) k)) hM
    have hfac : jitterFactor jitter k ≤ 1 := by
      rw [jitterFactor]
      have := (hj k).2
      linarith
    calc preJitterDelay base_delay max_delay k * jitterFactor jitter k
        ≤ preJitterDelay base_delay max_delay k * 1 :=
          mul_le_mul_of_nonneg_left hfac hpre0
      _ = preJitterDelay base_delay max_delay k := mul_one _
      _ ≤ max_delay := min_le_right _ _

theorem claim_retry_backoff_witness :
    (retry_async opAlwaysFail 3 1 60 (fun _ => 0)).delays =
      (List.range' 0
          ((retry_async opAlwaysFail 3 1 60 (fun _ => 0)).calls - 1)).map
        (fun k => preJitterDelay 1 60 k * jitterFactor (fun _ => 0) k) :=
  (claim_retry_backoff opAlwaysFail 3 1 60 (fun _ => 0) (by norm_num)
    (by norm_num) (fun k => ⟨le_refl 0, by norm_num⟩)).1

/-- C8: for every record whose status is one of the three enum literals
(enforced by the `ProcessStatus` type) and whose `retry_cnt` is a
non-negative integer, `from_dict ∘ to_dict` is the identity, and loading a
manifest right after saving it reproduces the saved record list exactly. -/
theorem claim_manifest_roundtrip (r : ImageRecord)
    (records : List ImageRecord) (hr : 0 ≤ r.retry_cnt)
    (hrec : ∀ q ∈ records, 0 ≤ q.retry_cnt) :
    ImageRecord.from_dict (ImageRecord.to_dict r) = some r ∧
      load_from_csv (save_to_csv records) = records :=
  ⟨from_dict_to_dict r hr, load_save_round records hrec⟩

theorem claim_manifest_roundtrip_witness :
    ImageRecord.from_dict (ImageRecord.to_dict sampleRecord) =
        some sampleRecord ∧
      load_from_csv (save_to_csv [sampleRecord]) = [sampleRecord] :=
  claim_manifest_roundtrip sampleRecord [sampleRecord] (by decide)
    (by decide)

/-- C9 counterexample: `load_from_csv` does not deduplicate, so loading a
CSV whose rows repeat a filepath produces a record list with duplicate
filepaths — the claimed invariant fails for the operation `load_from_csv`
at this input. -/
theorem claim_manifest_unique_cex :
    ¬ UniqueFilepaths (load_from_csv [dupRow, dupRow]) := by
  intro h
  rw [UniqueFilepaths] at h
  have hload : load_from_csv [dupRow, dupRow] =
      [{ filepath := "a.jpg", prompt_en := "", prompt_cn := "",
         status := ProcessStatus.pending, retry_cnt := 0 },
       { filepath := "a.jpg", prompt_en := "", prompt_cn := "",
         status := ProcessStatus.pending, retry_cnt := 0 }] := by decide
  rw [hload, List.pairwise_cons] at h
  exact h.1 _ (List.mem_cons_self _ _) rfl

/-- C9 amended: every `ManifestManager` operation except `load_from_csv`
preserves filepath uniqueness unconditionally; `load_from_csv` (which
replaces the record list with the parsed file contents) yields unique
filepaths provided the CSV rows' filepath fields are pairwise distinct. -/
theorem claim_manifest_unique_amended :
    (∀ rows : List RowDict,
      rows.Pairwise (fun a b => a.filepath ≠ b.filepath) →
      UniqueFilepaths (load_from_csv rows)) ∧
    (∀ (records : List ImageRecord) (fp pe pc : String)
        (st : ProcessStatus), UniqueFilepaths records →
      UniqueFilepaths (add_or_update_record records fp pe pc st)) ∧
    (∀ (records : List ImageRecord) (rels : List String),
      UniqueFilepaths records →
      UniqueFilepaths (import_from_directory records rels).1) ∧
    (∀ (records : List ImageRecord) (fp : String) (st : ProcessStatus),
      UniqueFilepaths records →
      UniqueFilepaths (update_record_status records fp st).1) ∧
    (∀ (records : List ImageRecord) (fp : String),
      UniqueFilepaths records →
      UniqueFilepaths (increment_retry_count records fp).1) :=
  ⟨load_from_csv_unique,
    fun records fp pe pc st hu => add_or_update_unique fp pe pc st records hu,
    fun records rels hu => import_from_directory_unique rels records hu,
    fun records fp st hu => update_record_status_unique fp st records hu,
    fun records fp hu => increment_retry_count_unique fp records hu⟩

theorem claim_manifest_unique_amended_witness :
    UniqueFilepaths
      (add_or_update_record [sampleRecord] "b.jpg" "" ""
        ProcessStatus.pending) :=
  claim_manifest_unique_amended.2.1 [sampleRecord] "b.jpg" "" ""
    ProcessStatus.pending (List.pairwise_singleton _ _)

end MinimaxTagger
